import Mathlib

/-! Shallow embedding of the zkwasm-mini-service bridge core: the deposit
tracking state machine of the Deposit class (deposit service source), the
historical block scanner, the L2 command encoding, and the settlement
instance-word extraction of src/utils/extract_merkle_root.ts.

TypeScript bigint arithmetic is modelled with Nat; the BigUint64Array
conversion in createCommand is written as an explicit reduction modulo
2 to the 64.  The mongoose store is modelled as a list of records in
insertion order: findOne returns the first record matching the filter,
updateOne rewrites the first record matching the filter, and saving a
document replaces the record with the same transaction hash (inserting
it when absent).  The record schema declares txHash unique, so at most
one record per hash exists in any store the service builds. -/

namespace ZkwasmMini

/-- Result of one TypeScript async call: a normal return value, a thrown
exception, or process.exit with a code. -/
inductive Outcome (α : Type) where
  | ok (a : α)
  | threw (msg : String)
  | exited (code : Nat)
  deriving DecidableEq

/-- One document of the mongoose TxHash model (txSchema).  The state field
is kept as a raw string because updateTxState receives an arbitrary string
and the dispatch in processTopUpEvent has a branch for a value outside the
enum.  The schema getters apply BigInt.asUintN 64 on reads; for the u64
values the service stores they are the identity, so fields are plain Nat.
The optional nonce getter has no null guard in this version, so reading
an unset nonce throws; that effect is modelled at its read site in
retryPath, the only place an unset nonce is read. -/
structure TxRecord where
  txHash : String
  state : String
  l1token : String
  address : String
  pid_1 : Nat
  pid_2 : Nat
  amount : Nat
  nonce : Option Nat
  retryCount : Nat
  lastRetryTime : Option Nat
  deriving DecidableEq

/-- The deposit tracking store: documents in insertion order. -/
abbrev Store := List TxRecord

/-- TxHash.findOne with filter on txHash: first record with that hash. -/
def findOne : Store → String → Option TxRecord
  | [], _ => none
  | r :: rs, h => if r.txHash = h then some r else findOne rs h

/-- Saving a document: replace the record with the same txHash (document
update), or append it (insert of a new document). -/
def saveTx : Store → TxRecord → Store
  | [], tx => [tx]
  | r :: rs, tx => if r.txHash = tx.txHash then tx :: rs else r :: saveTx rs tx

/-- TxHash.updateOne with filter on txHash and state not equal completed,
setting the state field: rewrites the first record matching both filter
conditions, as in updateTxState of the Deposit class. -/
def updateOneNeCompleted : Store → String → String → Store
  | [], _, _ => []
  | r :: rs, h, st =>
    if r.txHash = h ∧ r.state ≠ "completed" then { r with state := st } :: rs
    else r :: updateOneNeCompleted rs h st

/-- A new TxHash document as built in processTopUpEvent: nonce unset,
retryCount at its schema default 0, lastRetryTime unset. -/
def newTxRecord (txHash st l1token address : String) (pid_1 pid_2 amount : Nat) :
    TxRecord :=
  { txHash := txHash, state := st, l1token := l1token, address := address,
    pid_1 := pid_1, pid_2 := pid_2, amount := amount,
    nonce := none, retryCount := 0, lastRetryTime := none }

/-- Whether all records carry pairwise distinct transaction hashes: the
uniqueness that the txSchema declares on txHash. -/
def uniqueHashes : Store → Bool
  | [] => true
  | r :: rs => rs.all (fun x => x.txHash ≠ r.txHash) && uniqueHashes rs

/-! ## The settlement instance-word extraction, src/utils/extract_merkle_root.ts

The source parses decimal strings with BN and prints with
BN.toString applied to hex with pad width 64.  Elements of instArr are
modelled by their numeric values; the hex rendering is big-endian with
lowercase digits, left-padded with zero characters to width 64. -/

/-- The 256-bit limb combination used by all three extraction functions:
first limb shifted by 192, then 128, then 64, then the low limb. -/
def pack4 (a b c d : Nat) : Nat :=
  (a <<< 192) + (b <<< 128) + (c <<< 64) + d

/-- BN.toString for base 16 with pad width: big-endian lowercase hex
digits of v, left-padded with the zero character to the given width. -/
def natToHexPadded (v width : Nat) : String :=
  let ds := ((Nat.digits 16 v).reverse).map Nat.digitChar
  String.mk (List.replicate (width - ds.length) '0' ++ ds)

/-- extractMerkleRoot: requires at least 4 instance words, combines words
0 to 3 and renders 0x followed by 64 hex digits. -/
def extractMerkleRoot (instArr : List Nat) : Except String String :=
  if instArr.length < 4 then
    Except.error "instArr must have at least 4 elements to calculate merkle_root"
  else
    Except.ok ("0x" ++ natToHexPadded
      (pack4 (instArr.getD 0 0) (instArr.getD 1 0) (instArr.getD 2 0) (instArr.getD 3 0)) 64)

/-- extractNewMerkleRoot: requires at least 8 instance words, combines
words 4 to 7. -/
def extractNewMerkleRoot (instArr : List Nat) : Except String String :=
  if instArr.length < 8 then
    Except.error "instArr must have at least 8 elements to calculate new_merkle_root"
  else
    Except.ok ("0x" ++ natToHexPadded
      (pack4 (instArr.getD 4 0) (instArr.getD 5 0) (instArr.getD 6 0) (instArr.getD 7 0)) 64)

/-- extractShaHash: requires at least 12 instance words, combines words
8 to 11. -/
def extractShaHash (instArr : List Nat) : Except String String :=
  if instArr.length < 12 then
    Except.error "instArr must have at least 12 elements to calculate sha_pack"
  else
    Except.ok ("0x" ++ natToHexPadded
      (pack4 (instArr.getD 8 0) (instArr.getD 9 0) (instArr.getD 10 0) (instArr.getD 11 0)) 64)

/-- Whether an Except value is a success. -/
def isOkE (e : Except String String) : Bool :=
  match e with
  | Except.ok _ => true
  | Except.error _ => false

/-- Specification-side value of one lowercase hex digit character. -/
def hexCharVal (c : Char) : Nat :=
  if c.isDigit then c.toNat - 48 else c.toNat - 87

/-- Specification-side big-endian decoding of a hex digit string. -/
def hexStringVal (s : String) : Nat :=
  s.data.foldl (fun acc c => 16 * acc + hexCharVal c) 0

/-! ## The L2 command encoding, createCommand of the Deposit class -/

/-- createCommand: the first word packs nonce, parameter count plus one,
and the opcode; the parameters follow.  The BigUint64Array constructor
reduces every entry modulo 2 to the 64. -/
def createCommand (nonce opcode : Nat) (params : List Nat) : List Nat :=
  let cmd := (nonce <<< 16) + ((params.length + 1) <<< 8) + opcode
  (cmd :: params).map (fun x => x % 2 ^ 64)

/-! ## The historical sweep block batching, getHistoricalTopUpEvents

The source loop runs fromBlock from startBlock while fromBlock is
strictly below latestBlock, stepping by the batch size 25000, and each
iteration queries the inclusive range fromBlock to
min (fromBlock + 24999) latestBlock.  The recursion is written with a
fuel argument bounded by latestBlock - fromBlock, which strictly shrinks
by at least the step, so the fuel never runs out on the chosen value. -/

/-- The batch list produced by the scan loop, driven by fuel. -/
def batchesGo : Nat → Nat → Nat → List (Nat × Nat)
  | 0, _, _ => []
  | fuel + 1, fromBlock, latestBlock =>
    if fromBlock < latestBlock then
      (fromBlock, min (fromBlock + 24999) latestBlock) ::
        batchesGo fuel (fromBlock + 25000) latestBlock
    else []

/-- All query ranges issued by the scan loop of getHistoricalTopUpEvents
when it starts at fromBlock with the given chain head. -/
def batchesFrom (fromBlock latestBlock : Nat) : List (Nat × Nat) :=
  batchesGo (latestBlock - fromBlock) fromBlock latestBlock

/-- The start-block selection and skip logic of getHistoricalTopUpEvents:
none models the early return when the configured start block is beyond
the head; otherwise the batch list of the scan loop is produced.  The
fallback start is Math.max 0 of head minus 200000, which is Nat
subtraction. -/
def getHistoricalTopUpBatches (configStartBlock : Option Nat) (latestBlock : Nat) :
    Option (List (Nat × Nat)) :=
  match configStartBlock with
  | some sb =>
    if sb > latestBlock then none
    else some (batchesFrom sb latestBlock)
  | none => some (batchesFrom (latestBlock - 200000) latestBlock)

/-- Whether a block number lies in some queried range of a batch list. -/
def coveredB (bs : List (Nat × Nat)) (n : Nat) : Bool :=
  bs.any fun b => decide (b.1 ≤ n ∧ n ≤ b.2)

/-! ## The deposit state machine: processTopUpEvent and performDeposit

One run of processTopUpEvent on one decoded TopUp event is modelled as a
function of the remote responses the run consumes (an L2Env), the world
it starts in, the contract token list, and the event.  The admin RPC
getNonce is declared to return a u64, so the defensive null checks on
its result, which would call process.exit, are statically dead and do
not appear; a network failure of getNonce or checkDeposit is a thrown
exception.  Reading the nonce field of a fetched document runs the
schema getter, which applies BigInt.asUintN 64 to the raw value with no
null guard in this version, so the read of an unset nonce throws a
TypeError (see retryPath).  Every issued L2 submission is recorded as an action; the
depositCall action also records the document that performDeposit itself
reads back from the store immediately before submitting, which is the
persisted record at submission time. -/

/-- Responses of the remote collaborators consumed by one run. -/
inductive DepositRpcResult where
  | okRes
  | falsyRes
  | throwRes
  deriving DecidableEq

/-- The environment of one run: what admin.getNonce, admin.deposit,
admin.checkDeposit and the store update return, plus the current time
used for lastRetryTime. -/
structure L2Env where
  getNonceThrows : Bool
  getNonceResult : Nat
  depositResult : DepositRpcResult
  checkThrows : Bool
  checkData : Option String
  updateFails : Bool
  now : Nat
  deriving DecidableEq

/-- Observable L2 interactions of one run, in order. -/
inductive L2Action where
  | getNonceCall (result : Nat)
  | depositCall (nonce pid_1 pid_2 tokenIndex amount : Nat) (fetched : Option TxRecord)
  | checkDepositCall (nonce pid_1 pid_2 tokenIndex amount : Nat)
  deriving DecidableEq

/-- Mutable state threaded through a run: the store, the reentrancy flag
isProcessingDeposit of the Deposit class, and the action trace. -/
structure World where
  store : Store
  isProcessingDeposit : Bool
  actions : List L2Action
  deriving DecidableEq

/-- Append one observable action to the trace. -/
def emit (w : World) (a : L2Action) : World :=
  { w with actions := w.actions ++ [a] }

/-- updateTxState of the Deposit class: a conditional updateOne guarded
by state not equal completed, with every store error caught and logged,
so the call always returns normally.  A failing update leaves the store
unchanged. -/
def updateTxState (env : L2Env) (w : World) (txHash st : String) :
    Outcome Unit × World :=
  if env.updateFails then
    (Outcome.ok (), w)
  else
    (Outcome.ok (), { w with store := updateOneNeCompleted w.store txHash st })

/-- A decoded TopUp event: transaction hash plus the decoded argument
tuple l1token, address, pid_1, pid_2, amount in wei. -/
structure TopUpEvent where
  transactionHash : String
  l1token : String
  address : String
  pid_1 : Nat
  pid_2 : Nat
  amountWei : Nat
  deriving DecidableEq

/-- The token lookup of processTopUpEvent: index of the first contract
token whose token_uid equals the event token, the token list being
modelled by its token_uid strings. -/
def getTokenIndex (l1token : String) : List String → Option Nat
  | [] => none
  | t :: ts =>
    if l1token = t then some 0 else (getTokenIndex l1token ts).map (· + 1)

/-- performDeposit of the Deposit class.  Order of the source: fatal exit
on a reentrant call; set the reentrancy flag; read the tracked record and
fatal exit if it is already completed; submit admin.deposit; on a truthy
receipt mark completed and return true; on a falsy receipt mark failed
and throw, which the catch of the same function intercepts, re-reading
the record, returning true if it is now completed and otherwise marking
failed again and rethrowing; on a thrown submission the catch does the
same.  The finally clause clears the reentrancy flag on every path that
does not terminate the process. -/
def performDeposit (env : L2Env) (w : World) (txHash : String)
    (nonce pid_1 pid_2 tokenIndex amount : Nat) : Outcome Bool × World :=
  if w.isProcessingDeposit then
    (Outcome.exited 1, w)
  else
    let w1 : World := { w with isProcessingDeposit := true }
    let currentTx := findOne w1.store txHash
    if currentTx.map TxRecord.state = some "completed" then
      (Outcome.exited 1, w1)
    else
      let w2 := emit w1 (L2Action.depositCall nonce pid_1 pid_2 tokenIndex amount currentTx)
      match env.depositResult with
      | DepositRpcResult.okRes =>
        let w3 := (updateTxState env w2 txHash "completed").2
        (Outcome.ok true, { w3 with isProcessingDeposit := false })
      | DepositRpcResult.falsyRes =>
        let w3 := (updateTxState env w2 txHash "failed").2
        let latestTx := findOne w3.store txHash
        if latestTx.map TxRecord.state = some "completed" then
          (Outcome.ok true, { w3 with isProcessingDeposit := false })
        else
          let w4 := (updateTxState env w3 txHash "failed").2
          (Outcome.threw ("Deposit failed for transaction " ++ txHash),
            { w4 with isProcessingDeposit := false })
      | DepositRpcResult.throwRes =>
        let latestTx := findOne w2.store txHash
        if latestTx.map TxRecord.state = some "completed" then
          (Outcome.ok true, { w2 with isProcessingDeposit := false })
        else
          let w3 := (updateTxState env w2 txHash "failed").2
          (Outcome.threw "Error during deposit",
            { w3 with isProcessingDeposit := false })

/-- The untracked-hash branch of processTopUpEvent: a dust amount is
recorded directly as completed; otherwise the record is inserted as
pending, a nonce is fetched and saved, the state is saved as in-progress
and the deposit is performed, any deposit error marking the record
failed before rethrowing. -/
def freshPath (env : L2Env) (w : World) (ev : TopUpEvent)
    (tokenindex amountInEther : Nat) : Outcome Unit × World :=
  if amountInEther < 1 then
    let dust := newTxRecord ev.transactionHash "completed" ev.l1token ev.address
      ev.pid_1 ev.pid_2 amountInEther
    (Outcome.ok (), { w with store := saveTx w.store dust })
  else
    let tx0 := newTxRecord ev.transactionHash "pending" ev.l1token ev.address
      ev.pid_1 ev.pid_2 amountInEther
    let w1 : World := { w with store := saveTx w.store tx0 }
    if env.getNonceThrows then
      (Outcome.threw "Error during get nonce", w1)
    else
      let nonce := env.getNonceResult
      let w2 := emit w1 (L2Action.getNonceCall nonce)
      let tx1 := { tx0 with nonce := some nonce }
      let w3 : World := { w2 with store := saveTx w2.store tx1 }
      let tx2 := { tx1 with state := "in-progress" }
      let w4 : World := { w3 with store := saveTx w3.store tx2 }
      match performDeposit env w4 ev.transactionHash nonce ev.pid_1 ev.pid_2
        tokenindex amountInEther with
      | (Outcome.ok _, w5) => (Outcome.ok (), w5)
      | (Outcome.threw m, w5) =>
        (Outcome.threw m, (updateTxState env w5 ev.transactionHash "failed").2)
      | (Outcome.exited c, w5) => (Outcome.exited c, w5)

/-- The pending branch of processTopUpEvent: fetch and save a nonce,
close dust as completed, otherwise save in-progress and perform the
deposit, any deposit error marking the record failed before rethrowing. -/
def pendingPath (env : L2Env) (w : World) (ev : TopUpEvent) (tx : TxRecord)
    (tokenindex amountInEther : Nat) : Outcome Unit × World :=
  if env.getNonceThrows then
    (Outcome.threw "Error during get nonce", w)
  else
    let nonce := env.getNonceResult
    let w1 := emit w (L2Action.getNonceCall nonce)
    let tx1 := { tx with nonce := some nonce }
    let w2 : World := { w1 with store := saveTx w1.store tx1 }
    if amountInEther < 1 then
      (Outcome.ok (), (updateTxState env w2 ev.transactionHash "completed").2)
    else
      let tx2 := { tx1 with state := "in-progress" }
      let w3 : World := { w2 with store := saveTx w2.store tx2 }
      match performDeposit env w3 ev.transactionHash nonce ev.pid_1 ev.pid_2
        tokenindex amountInEther with
      | (Outcome.ok _, w4) => (Outcome.ok (), w4)
      | (Outcome.threw m, w4) =>
        (Outcome.threw m, (updateTxState env w4 ev.transactionHash "failed").2)
      | (Outcome.exited c, w4) => (Outcome.exited c, w4)

/-- The in-progress or failed branch of processTopUpEvent.  Its first
effect is the read of tx.nonce for the null check: the schema getter of
this version applies BigInt.asUintN 64 without a null guard, so when the
nonce is unset the read itself throws a TypeError, which the catch of
this branch logs and rethrows; the process.exit guarding the unset case
is unreachable dead code.  With a stored nonce the branch consults
checkDeposit first, closes the record as completed on a non-null answer,
and otherwise increments retryCount, stamps lastRetryTime, fetches and
saves a fresh nonce, and resubmits.  The catch of this branch only logs
and rethrows. -/
def retryPath (env : L2Env) (w : World) (ev : TopUpEvent) (tx : TxRecord)
    (tokenindex amountInEther : Nat) : Outcome Unit × World :=
  match tx.nonce with
  | none => (Outcome.threw "TypeError: Cannot convert undefined to a BigInt", w)
  | some n =>
    if env.checkThrows then
      (Outcome.threw "Error during checkDeposit", w)
    else
      let w1 := emit w (L2Action.checkDepositCall n ev.pid_1 ev.pid_2 tokenindex amountInEther)
      if env.checkData.isSome then
        (Outcome.ok (), (updateTxState env w1 ev.transactionHash "completed").2)
      else
        if env.getNonceThrows then
          (Outcome.threw "Error during get nonce", w1)
        else
          let newNonce := env.getNonceResult
          let w2 := emit w1 (L2Action.getNonceCall newNonce)
          let tx1 := { tx with
            retryCount := tx.retryCount + 1
            lastRetryTime := some env.now
            nonce := some newNonce }
          let w3 : World := { w2 with store := saveTx w2.store tx1 }
          match performDeposit env w3 ev.transactionHash newNonce ev.pid_1 ev.pid_2
            tokenindex amountInEther with
          | (Outcome.ok _, w4) => (Outcome.ok (), w4)
          | (Outcome.threw m, w4) => (Outcome.threw m, w4)
          | (Outcome.exited c, w4) => (Outcome.exited c, w4)

/-- processTopUpEvent of the Deposit class: resolve the token index,
skipping unknown tokens; convert the wei amount to whole units by
integer division; look up the tracked record for the transaction hash
and dispatch on its state, a completed record being a no-op and a state
outside the schema enum a fatal exit. -/
def processTopUpEvent (env : L2Env) (w : World) (tokens : List String)
    (ev : TopUpEvent) : Outcome Unit × World :=
  match getTokenIndex ev.l1token tokens with
  | none => (Outcome.ok (), w)
  | some tokenindex =>
    let amountInEther := ev.amountWei / 10 ^ 18
    match findOne w.store ev.transactionHash with
    | none => freshPath env w ev tokenindex amountInEther
    | some tx =>
      if tx.state = "completed" then (Outcome.ok (), w)
      else if tx.state = "pending" then
        pendingPath env w ev tx tokenindex amountInEther
      else if tx.state = "in-progress" ∨ tx.state = "failed" then
        retryPath env w ev tx tokenindex amountInEther
      else (Outcome.exited 1, w)

/-! ## Predicate used to state the submission well-formedness claim -/

/-- Whether every deposit submission recorded in a trace was issued
against a persisted record that exists, has its nonce set, and is in
state in-progress or failed. -/
def submissionsWellFormed (acts : List L2Action) : Bool :=
  acts.all fun a =>
    match a with
    | L2Action.depositCall _ _ _ _ _ fetched =>
      match fetched with
      | some r => r.nonce.isSome && (r.state == "in-progress" || r.state == "failed")
      | none => false
    | _ => true

/-! ## Helper lemmas: hex rendering -/

theorem hexCharVal_digitChar {d : Nat} (hd : d < 16) :
    hexCharVal (Nat.digitChar d) = d := by
  interval_cases d <;> decide

theorem foldl_hex_replicate (k : Nat) (l : List Char) :
    List.foldl (fun acc c => 16 * acc + hexCharVal c) 0 (List.replicate k '0' ++ l) =
      List.foldl (fun acc c => 16 * acc + hexCharVal c) 0 l := by
  have h0 : hexCharVal '0' = 0 := by decide
  induction k with
  | zero => rfl
  | succ m ih => simpa [List.replicate_succ, h0] using ih

theorem foldl_hex_acc (L : List Nat) : ∀ a : Nat,
    List.foldl (fun acc d => 16 * acc + d) a L.reverse =
      a * 16 ^ L.length + Nat.ofDigits 16 L := by
  induction L with
  | nil => intro a; simp
  | cons d L ih =>
    intro a
    simp only [List.reverse_cons, List.foldl_append, List.foldl_cons, List.foldl_nil,
      ih, List.length_cons, Nat.ofDigits_cons]
    ring

theorem foldl_hex_digits (v : Nat) :
    List.foldl (fun acc c => 16 * acc + hexCharVal c) 0
      (((Nat.digits 16 v).reverse).map Nat.digitChar) = v := by
  rw [List.foldl_map]
  rw [List.foldl_ext (g := fun acc d => 16 * acc + d)]
  · have := foldl_hex_acc (Nat.digits 16 v) 0
    simpa [Nat.ofDigits_digits] using this
  · intro a b hb
    rw [List.mem_reverse] at hb
    rw [hexCharVal_digitChar (Nat.digits_lt_base (by norm_num) hb)]

theorem digits16_length_le (v : Nat) (hv : v < 2 ^ 256) :
    (Nat.digits 16 v).length ≤ 64 := by
  by_contra hlen
  push_neg at hlen
  rcases Nat.eq_zero_or_pos v with hv0 | hv0
  · subst hv0; simp at hlen
  · have h1 : 16 ^ (Nat.digits 16 v).length ≤ 16 * v :=
      Nat.base_pow_length_digits_le 16 v (by norm_num) (by omega)
    have h2 : (16 : Nat) ^ 65 ≤ 16 ^ (Nat.digits 16 v).length :=
      Nat.pow_le_pow_right (by norm_num) (by omega)
    have h4 : (16 : Nat) ^ 65 = 16 * 2 ^ 256 := by norm_num
    omega

theorem natToHexPadded_spec (v : Nat) (hv : v < 2 ^ 256) :
    (natToHexPadded v 64).length = 64 ∧ hexStringVal (natToHexPadded v 64) = v := by
  have hlen : (Nat.digits 16 v).length ≤ 64 := digits16_length_le v hv
  unfold natToHexPadded hexStringVal
  constructor
  · show (String.mk _).length = 64
    simp only [String.length, List.length_append, List.length_replicate,
      List.length_map, List.length_reverse]
    omega
  · show List.foldl _ 0 (List.replicate _ '0' ++ _) = v
    rw [foldl_hex_replicate, foldl_hex_digits]

theorem pack4_lt {a b c d : Nat} (ha : a < 2 ^ 64) (hb : b < 2 ^ 64)
    (hc : c < 2 ^ 64) (hd : d < 2 ^ 64) : pack4 a b c d < 2 ^ 256 := by
  unfold pack4
  simp only [Nat.shiftLeft_eq]
  have h1 : a * 2 ^ 192 ≤ (2 ^ 64 - 1) * 2 ^ 192 := Nat.mul_le_mul_right _ (by omega)
  have h2 : b * 2 ^ 128 ≤ (2 ^ 64 - 1) * 2 ^ 128 := Nat.mul_le_mul_right _ (by omega)
  have h3 : c * 2 ^ 64 ≤ (2 ^ 64 - 1) * 2 ^ 64 := Nat.mul_le_mul_right _ (by omega)
  norm_num at h1 h2 h3 ⊢
  omega

theorem getD_lt_of_forall {l : List Nat} (hb : ∀ x ∈ l, x < 2 ^ 64) {i : Nat}
    (hi : i < l.length) : l.getD i 0 < 2 ^ 64 := by
  have he : l.getD i 0 = l[i] := by
    simp [List.getD_eq_getElem?_getD, List.getElem?_eq_getElem hi]
  rw [he]
  exact hb _ (List.getElem_mem hi)

/-- C5: for instance arrays of u64 values, extractMerkleRoot succeeds
exactly when at least 4 words are present (and the other two extractors
at 8 and 12), and on success it returns 0x followed by exactly 64 hex
digits decoding to the big-endian combination of words 0 to 3 shifted by
192, 128, 64 and 0 bits. -/
theorem c5_instance_words (instArr : List Nat) (hb : ∀ x ∈ instArr, x < 2 ^ 64) :
    (isOkE (extractMerkleRoot instArr) = true ↔ 4 ≤ instArr.length)
    ∧ (isOkE (extractNewMerkleRoot instArr) = true ↔ 8 ≤ instArr.length)
    ∧ (isOkE (extractShaHash instArr) = true ↔ 12 ≤ instArr.length)
    ∧ (4 ≤ instArr.length →
        extractMerkleRoot instArr = Except.ok ("0x" ++ natToHexPadded
          (pack4 (instArr.getD 0 0) (instArr.getD 1 0) (instArr.getD 2 0)
            (instArr.getD 3 0)) 64)
        ∧ (natToHexPadded (pack4 (instArr.getD 0 0) (instArr.getD 1 0)
            (instArr.getD 2 0) (instArr.getD 3 0)) 64).length = 64
        ∧ hexStringVal (natToHexPadded (pack4 (instArr.getD 0 0) (instArr.getD 1 0)
            (instArr.getD 2 0) (instArr.getD 3 0)) 64) =
          pack4 (instArr.getD 0 0) (instArr.getD 1 0) (instArr.getD 2 0)
            (instArr.getD 3 0)) := by
  refine ⟨?_, ?_, ?_, ?_⟩
  · by_cases hl : instArr.length < 4 <;> simp [extractMerkleRoot, isOkE, hl] <;> omega
  · by_cases hl : instArr.length < 8 <;> simp [extractNewMerkleRoot, isOkE, hl] <;> omega
  · by_cases hl : instArr.length < 12 <;> simp [extractShaHash, isOkE, hl] <;> omega
  · intro h4
    have hpack : pack4 (instArr.getD 0 0) (instArr.getD 1 0) (instArr.getD 2 0)
        (instArr.getD 3 0) < 2 ^ 256 :=
      pack4_lt (getD_lt_of_forall hb (by omega)) (getD_lt_of_forall hb (by omega))
        (getD_lt_of_forall hb (by omega)) (getD_lt_of_forall hb (by omega))
    have hspec := natToHexPadded_spec _ hpack
    refine ⟨?_, hspec.1, hspec.2⟩
    rw [extractMerkleRoot, if_neg (by omega)]

/-- C5 witness: the theorem applied to a concrete four-word instance
array of u64 values. -/
theorem c5_instance_words_witness :
    (∀ x ∈ [1, 2, 3, 4], x < 2 ^ 64)
    ∧ ((isOkE (extractMerkleRoot [1, 2, 3, 4]) = true ↔ 4 ≤ ([1, 2, 3, 4] : List Nat).length)
      ∧ (isOkE (extractNewMerkleRoot [1, 2, 3, 4]) = true ↔ 8 ≤ ([1, 2, 3, 4] : List Nat).length)
      ∧ (isOkE (extractShaHash [1, 2, 3, 4]) = true ↔ 12 ≤ ([1, 2, 3, 4] : List Nat).length)
      ∧ (4 ≤ ([1, 2, 3, 4] : List Nat).length →
          extractMerkleRoot [1, 2, 3, 4] = Except.ok ("0x" ++ natToHexPadded
            (pack4 (([1, 2, 3, 4] : List Nat).getD 0 0) (([1, 2, 3, 4] : List Nat).getD 1 0)
              (([1, 2, 3, 4] : List Nat).getD 2 0) (([1, 2, 3, 4] : List Nat).getD 3 0)) 64)
          ∧ (natToHexPadded (pack4 (([1, 2, 3, 4] : List Nat).getD 0 0)
              (([1, 2, 3, 4] : List Nat).getD 1 0) (([1, 2, 3, 4] : List Nat).getD 2 0)
              (([1, 2, 3, 4] : List Nat).getD 3 0)) 64).length = 64
          ∧ hexStringVal (natToHexPadded (pack4 (([1, 2, 3, 4] : List Nat).getD 0 0)
              (([1, 2, 3, 4] : List Nat).getD 1 0) (([1, 2, 3, 4] : List Nat).getD 2 0)
              (([1, 2, 3, 4] : List Nat).getD 3 0)) 64) =
            pack4 (([1, 2, 3, 4] : List Nat).getD 0 0) (([1, 2, 3, 4] : List Nat).getD 1 0)
              (([1, 2, 3, 4] : List Nat).getD 2 0) (([1, 2, 3, 4] : List Nat).getD 3 0))) :=
  ⟨by decide, c5_instance_words [1, 2, 3, 4] (by decide)⟩

/-- C7: under the stated field bounds the first command word equals the
bitwise-or packing of nonce, parameter count plus one, and opcode, and
the remaining words are exactly the u64 parameters in order. -/
theorem c7_createCommand (nonce opcode : Nat) (params : List Nat)
    (h1 : nonce < 2 ^ 48) (h2 : opcode < 2 ^ 8) (h3 : params.length + 1 < 2 ^ 8)
    (h4 : ∀ p ∈ params, p < 2 ^ 64) :
    createCommand nonce opcode params =
      (((nonce <<< 16) ||| ((params.length + 1) <<< 8)) ||| opcode) :: params := by
  unfold createCommand
  simp only [List.map_cons]
  congr 1
  · have e1 : ((params.length + 1) <<< 8) + opcode =
        ((params.length + 1) <<< 8) ||| opcode := by
      rw [Nat.shiftLeft_eq, Nat.mul_comm]
      exact Nat.mul_add_lt_is_or h2 (params.length + 1)
    have hX : ((params.length + 1) <<< 8) ||| opcode < 2 ^ 16 := by
      rw [← e1, Nat.shiftLeft_eq]
      have hm : (params.length + 1) * 2 ^ 8 ≤ (2 ^ 8 - 1) * 2 ^ 8 :=
        Nat.mul_le_mul_right _ (by omega)
      norm_num at hm ⊢
      omega
    have e2 : (nonce <<< 16) + (((params.length + 1) <<< 8) ||| opcode) =
        (nonce <<< 16) ||| (((params.length + 1) <<< 8) ||| opcode) := by
      rw [Nat.shiftLeft_eq, Nat.mul_comm]
      exact Nat.mul_add_lt_is_or hX nonce
    have hbound : (nonce <<< 16) + ((params.length + 1) <<< 8) + opcode < 2 ^ 64 := by
      rw [Nat.shiftLeft_eq, Nat.shiftLeft_eq]
      have ha : nonce * 2 ^ 16 ≤ (2 ^ 48 - 1) * 2 ^ 16 := Nat.mul_le_mul_right _ (by omega)
      have hc : (params.length + 1) * 2 ^ 8 ≤ (2 ^ 8 - 1) * 2 ^ 8 :=
        Nat.mul_le_mul_right _ (by omega)
      norm_num at ha hc ⊢
      omega
    calc ((nonce <<< 16) + ((params.length + 1) <<< 8) + opcode) % 2 ^ 64
        = (nonce <<< 16) + ((params.length + 1) <<< 8) + opcode :=
          Nat.mod_eq_of_lt hbound
      _ = (nonce <<< 16) + (((params.length + 1) <<< 8) + opcode) := by omega
      _ = (nonce <<< 16) + (((params.length + 1) <<< 8) ||| opcode) := by rw [e1]
      _ = (nonce <<< 16) ||| (((params.length + 1) <<< 8) ||| opcode) := e2
      _ = ((nonce <<< 16) ||| ((params.length + 1) <<< 8)) ||| opcode :=
          (Nat.or_assoc _ _ _).symm
  · calc params.map (fun x => x % 2 ^ 64)
        = params.map id := List.map_congr_left (fun a ha => Nat.mod_eq_of_lt (h4 a ha))
      _ = params := List.map_id _

/-- C7 witness: the theorem applied at nonce 5, opcode 2 and two
parameters. -/
theorem c7_createCommand_witness :
    createCommand 5 2 [7, 8] = (((5 <<< 16) ||| (3 <<< 8)) ||| 2) :: [7, 8] :=
  c7_createCommand 5 2 [7, 8] (by decide) (by decide) (by decide) (by decide)

/-! ## Helper lemmas: the historical sweep batch list -/

theorem coveredB_go (L : Nat) : ∀ fuel f n, L - f ≤ fuel →
    (coveredB (batchesGo fuel f L) n = true ↔
      f ≤ n ∧ n ≤ L ∧ (n < L ∨ ¬ (25000 ∣ L - f))) := by
  intro fuel
  induction fuel with
  | zero =>
    intro f n h
    have hfl : ¬ f < L := by omega
    simp only [batchesGo]
    constructor
    · intro hc
      simp [coveredB] at hc
    · rintro ⟨h1, h2, h3⟩
      exfalso
      rcases h3 with h3 | h3 <;> omega
  | succ m ih =>
    intro f n h
    by_cases hfl : f < L
    · simp only [batchesGo, if_pos hfl]
      have hrec := ih (f + 25000) n (by omega)
      have hcons : coveredB ((f, min (f + 24999) L) :: batchesGo m (f + 25000) L) n =
          (decide (f ≤ n ∧ n ≤ min (f + 24999) L) ||
            coveredB (batchesGo m (f + 25000) L) n) := rfl
      rw [hcons, Bool.or_eq_true, decide_eq_true_eq, hrec]
      omega
    · simp only [batchesGo, if_neg hfl]
      constructor
      · intro hc
        simp [coveredB] at hc
      · rintro ⟨h1, h2, h3⟩
        exfalso
        rcases h3 with h3 | h3 <;> omega

theorem coveredB_batchesFrom (f L n : Nat) :
    coveredB (batchesFrom f L) n = true ↔
      f ≤ n ∧ n ≤ L ∧ (n < L ∨ ¬ (25000 ∣ L - f)) :=
  coveredB_go L (L - f) f n (Nat.le_refl _)

theorem batchesGo_sizes (L : Nat) : ∀ fuel f,
    (batchesGo fuel f L).all
      (fun p => decide (p.1 ≤ p.2 ∧ p.2 + 1 ≤ p.1 + 25000)) = true := by
  intro fuel
  induction fuel with
  | zero => intro f; rfl
  | succ m ih =>
    intro f
    by_cases hfl : f < L
    · simp only [batchesGo, if_pos hfl, List.all_cons, Bool.and_eq_true,
        decide_eq_true_eq]
      exact ⟨⟨by omega, by omega⟩, ih (f + 25000)⟩
    · simp only [batchesGo, if_neg hfl]
      rfl

theorem batchesGo_head (L : Nat) : ∀ fuel f, L - f ≤ fuel →
    (batchesGo fuel f L).head? =
      (if f < L then some (f, min (f + 24999) L) else none) := by
  intro fuel
  cases fuel with
  | zero =>
    intro f h
    have hfl : ¬ f < L := by omega
    simp [batchesGo, hfl]
  | succ m =>
    intro f h
    by_cases hfl : f < L
    · simp [batchesGo, hfl]
    · simp [batchesGo, hfl]

theorem batchesGo_chain (L : Nat) : ∀ fuel f, L - f ≤ fuel →
    List.Chain' (fun a b : Nat × Nat => b.1 = a.2 + 1) (batchesGo fuel f L) := by
  intro fuel
  induction fuel with
  | zero =>
    intro f h
    have hfl : ¬ f < L := by omega
    simp [batchesGo, hfl]
  | succ m ih =>
    intro f h
    by_cases hfl : f < L
    · simp only [batchesGo, if_pos hfl]
      rw [List.chain'_cons']
      constructor
      · intro y hy
        rw [batchesGo_head L m (f + 25000) (by omega)] at hy
        by_cases h2 : f + 25000 < L
        · rw [if_pos h2] at hy
          simp only [Option.mem_def, Option.some.injEq] at hy
          subst hy
          simp only
          omega
        · rw [if_neg h2] at hy
          simp at hy
      · exact ih (f + 25000) (by omega)
    · simp [batchesGo, hfl]

theorem batchesFrom_sizes (L f : Nat) :
    (batchesFrom f L).all
      (fun p => decide (p.1 ≤ p.2 ∧ p.2 + 1 ≤ p.1 + 25000)) = true :=
  batchesGo_sizes L (L - f) f

theorem batchesFrom_chain (L f : Nat) :
    List.Chain' (fun a b : Nat × Nat => b.1 = a.2 + 1) (batchesFrom f L) :=
  batchesGo_chain L (L - f) f (Nat.le_refl _)

theorem batchesFrom_head (f L : Nat) :
    (batchesFrom f L).head? =
      (if f < L then some (f, min (f + 24999) L) else none) :=
  batchesGo_head L (L - f) f (Nat.le_refl _)


/-- C8 counterexample: with the configured start block equal to the
chain head the sweep is not skipped but issues no batch at all, so the
head block is not scanned, contradicting the claim that the head block
is still scanned in that case. -/
theorem c8_head_equal_not_scanned :
    getHistoricalTopUpBatches (some 100) 100 = some [] ∧ coveredB [] 100 = false := by
  decide

/-- C8 as amended: the sweep is skipped exactly when the configured
start block exceeds the head, otherwise it starts at the configured
start block, or at head minus 200000 (clamped at 0) when none is
configured; it walks toward the head in consecutive batches of at most
25000 blocks starting at the start block, and the batches cover exactly
the interval from the start block to the head, except that the head
block itself is omitted whenever the distance from start block to head
is a multiple of 25000, in particular whenever the configured start
block equals the head, in which case nothing is scanned. -/
theorem c8_historical_sweep (f head n sb : Nat) :
    (getHistoricalTopUpBatches (some sb) head =
      if head < sb then none else some (batchesFrom sb head))
    ∧ getHistoricalTopUpBatches none head = some (batchesFrom (head - 200000) head)
    ∧ (coveredB (batchesFrom f head) n = true ↔
        f ≤ n ∧ n ≤ head ∧ (n < head ∨ ¬ (25000 ∣ head - f)))
    ∧ (batchesFrom f head).all
        (fun p => decide (p.1 ≤ p.2 ∧ p.2 + 1 ≤ p.1 + 25000)) = true
    ∧ List.Chain' (fun a b : Nat × Nat => b.1 = a.2 + 1) (batchesFrom f head)
    ∧ (batchesFrom f head).head? =
        (if f < head then some (f, min (f + 24999) head) else none) := by
  refine ⟨?_, rfl, coveredB_batchesFrom f head n, batchesFrom_sizes head f,
    batchesFrom_chain head f, batchesFrom_head f head⟩
  by_cases h : head < sb
  · rw [if_pos h]
    simp [getHistoricalTopUpBatches, h]
  · rw [if_neg h]
    simp only [getHistoricalTopUpBatches]
    rw [if_neg (by omega)]

/-! ## Helper lemmas: the tracking store -/

theorem findOne_txHash : ∀ {s : Store} {h : String} {r : TxRecord},
    findOne s h = some r → r.txHash = h := by
  intro s
  induction s with
  | nil => intro h r hf; simp [findOne] at hf
  | cons a rs ih =>
    intro h r hf
    rw [findOne] at hf
    by_cases ha : a.txHash = h
    · rw [if_pos ha] at hf
      simp only [Option.some.injEq] at hf
      subst hf
      exact ha
    · rw [if_neg ha] at hf
      exact ih hf

theorem findOne_saveTx_self : ∀ (s : Store) (tx : TxRecord),
    findOne (saveTx s tx) tx.txHash = some tx := by
  intro s tx
  induction s with
  | nil => simp [saveTx, findOne]
  | cons r rs ih =>
    by_cases hr : r.txHash = tx.txHash
    · simp [saveTx, hr, findOne]
    · simp only [saveTx, if_neg hr, findOne]
      exact ih

theorem findOne_updateOne_set : ∀ (s : Store) {h : String} {r : TxRecord},
    findOne s h = some r → r.state ≠ "completed" → ∀ st : String,
    findOne (updateOneNeCompleted s h st) h = some { r with state := st } := by
  intro s
  induction s with
  | nil => intro h r hf; simp [findOne] at hf
  | cons a rs ih =>
    intro h r hf hr st
    rw [findOne] at hf
    by_cases ha : a.txHash = h
    · rw [if_pos ha] at hf
      simp only [Option.some.injEq] at hf
      subst hf
      rw [updateOneNeCompleted, if_pos ⟨ha, hr⟩, findOne, if_pos ha]
    · rw [if_neg ha] at hf
      rw [updateOneNeCompleted, if_neg (fun hc => ha hc.1), findOne, if_neg ha]
      exact ih hf hr st

theorem findOne_updateOne_completed : ∀ (s : Store) {h : String} {r : TxRecord},
    findOne s h = some r → r.state = "completed" → ∀ st : String,
    findOne (updateOneNeCompleted s h st) h = some r := by
  intro s
  induction s with
  | nil => intro h r hf; simp [findOne] at hf
  | cons a rs ih =>
    intro h r hf hr st
    rw [findOne] at hf
    by_cases ha : a.txHash = h
    · rw [if_pos ha] at hf
      simp only [Option.some.injEq] at hf
      subst hf
      rw [updateOneNeCompleted, if_neg (fun hc => hc.2 hr), findOne, if_pos ha]
    · rw [if_neg ha] at hf
      rw [updateOneNeCompleted, if_neg (fun hc => ha hc.1), findOne, if_neg ha]
      exact ih hf hr st

theorem updateOne_not_mem : ∀ (s : Store) (h st : String),
    (∀ x ∈ s, x.txHash ≠ h) → updateOneNeCompleted s h st = s := by
  intro s
  induction s with
  | nil => intro h st _; rfl
  | cons a rs ih =>
    intro h st hm
    rw [updateOneNeCompleted,
      if_neg (fun hc => hm a (List.mem_cons_self a rs) hc.1)]
    rw [ih h st (fun x hx => hm x (List.mem_cons_of_mem a hx))]

theorem uniqueHashes_cons {a : TxRecord} {rs : Store}
    (hu : uniqueHashes (a :: rs) = true) :
    (∀ x ∈ rs, x.txHash ≠ a.txHash) ∧ uniqueHashes rs = true := by
  rw [uniqueHashes, Bool.and_eq_true, List.all_eq_true] at hu
  refine ⟨fun x hx => ?_, hu.2⟩
  have := hu.1 x hx
  simpa using this

theorem markCompleted_idem : ∀ (s : Store) (h : String), uniqueHashes s = true →
    updateOneNeCompleted (updateOneNeCompleted s h "completed") h "completed" =
      updateOneNeCompleted s h "completed" := by
  intro s
  induction s with
  | nil => intro h _; rfl
  | cons a rs ih =>
    intro h hu
    obtain ⟨hne, hu2⟩ := uniqueHashes_cons hu
    by_cases hcond : a.txHash = h ∧ a.state ≠ "completed"
    · rw [updateOneNeCompleted, if_pos hcond]
      rw [updateOneNeCompleted, if_neg (fun hc => hc.2 rfl)]
      rw [updateOne_not_mem rs h "completed"
        (fun x hx => hcond.1 ▸ hne x hx)]
    · rw [updateOneNeCompleted, if_neg hcond]
      rw [updateOneNeCompleted, if_neg hcond]
      rw [ih h hu2]

/-- C2: a persisted completed record is terminal.  Processing the same
TopUp event again returns without touching the world; the conditional
update of updateTxState leaves a completed record unchanged whatever
state it is asked to write; and marking completed a second time is a
no-op on a store with unique hashes. -/
theorem c2_completed_terminal (env : L2Env) (w : World) (tokens : List String)
    (ev : TopUpEvent) (s : Store) (h st : String) (tx r : TxRecord)
    (h1 : findOne w.store ev.transactionHash = some tx)
    (h2 : tx.state = "completed")
    (h3 : findOne s h = some r) (h4 : r.state = "completed")
    (h5 : uniqueHashes s = true) :
    processTopUpEvent env w tokens ev = (Outcome.ok (), w)
    ∧ findOne (updateOneNeCompleted s h st) h = some r
    ∧ updateOneNeCompleted (updateOneNeCompleted s h "completed") h "completed" =
        updateOneNeCompleted s h "completed" := by
  refine ⟨?_, findOne_updateOne_completed s h3 h4 st, markCompleted_idem s h h5⟩
  cases hti : getTokenIndex ev.l1token tokens with
  | none => simp [processTopUpEvent, hti]
  | some ti => simp [processTopUpEvent, hti, h1, h2]

/-- C2 witness: the theorem applied to a singleton store holding one
completed record. -/
theorem c2_completed_terminal_witness :
    (processTopUpEvent
        ⟨false, 7, DepositRpcResult.okRes, false, none, false, 0⟩
        ⟨[newTxRecord "0xa" "completed" "tokA" "u" 1 2 3], false, []⟩
        ["tokA"] ⟨"0xa", "tokA", "u", 1, 2, 3 * 10 ^ 18⟩ =
      (Outcome.ok (), ⟨[newTxRecord "0xa" "completed" "tokA" "u" 1 2 3], false, []⟩))
    ∧ findOne (updateOneNeCompleted [newTxRecord "0xa" "completed" "tokA" "u" 1 2 3]
        "0xa" "failed") "0xa" = some (newTxRecord "0xa" "completed" "tokA" "u" 1 2 3)
    ∧ updateOneNeCompleted (updateOneNeCompleted
        [newTxRecord "0xa" "completed" "tokA" "u" 1 2 3] "0xa" "completed")
        "0xa" "completed" =
      updateOneNeCompleted [newTxRecord "0xa" "completed" "tokA" "u" 1 2 3]
        "0xa" "completed" :=
  c2_completed_terminal
    ⟨false, 7, DepositRpcResult.okRes, false, none, false, 0⟩
    ⟨[newTxRecord "0xa" "completed" "tokA" "u" 1 2 3], false, []⟩
    ["tokA"] ⟨"0xa", "tokA", "u", 1, 2, 3 * 10 ^ 18⟩
    [newTxRecord "0xa" "completed" "tokA" "u" 1 2 3] "0xa" "failed"
    (newTxRecord "0xa" "completed" "tokA" "u" 1 2 3)
    (newTxRecord "0xa" "completed" "tokA" "u" 1 2 3)
    (by decide) (by decide) (by decide) (by decide) (by decide)

/-- C10: if the tracked record is already completed when performDeposit
begins (and no other submission is in flight), the process exits with
code 1 instead of returning. -/
theorem c10_completed_abort (env : L2Env) (w : World) (txHash : String)
    (nonce pid_1 pid_2 tokenIndex amount : Nat) (tx : TxRecord)
    (hflag : w.isProcessingDeposit = false)
    (hfind : findOne w.store txHash = some tx) (hst : tx.state = "completed") :
    (performDeposit env w txHash nonce pid_1 pid_2 tokenIndex amount).1 =
      Outcome.exited 1 := by
  simp [performDeposit, hflag, hfind, hst]

/-- C10 witness: the theorem applied to a store holding one completed
record. -/
theorem c10_completed_abort_witness :
    (performDeposit ⟨false, 7, DepositRpcResult.okRes, false, none, false, 0⟩
      ⟨[newTxRecord "0xa" "completed" "tokA" "u" 1 2 3], false, []⟩
      "0xa" 7 1 2 0 3).1 = Outcome.exited 1 :=
  c10_completed_abort ⟨false, 7, DepositRpcResult.okRes, false, none, false, 0⟩
    ⟨[newTxRecord "0xa" "completed" "tokA" "u" 1 2 3], false, []⟩
    "0xa" 7 1 2 0 3 (newTxRecord "0xa" "completed" "tokA" "u" 1 2 3)
    rfl (by decide) rfl

/-- C9: updateTxState never throws: it returns normally for every
environment, and when the store update fails the store is left
unchanged; consequently a successful deposit whose completion write
fails still reports success to its caller while the record remains
in-progress. -/
theorem c9_update_errors_swallowed (env envA : L2Env) (w wA : World)
    (txHash st : String) (nonce pid_1 pid_2 tokenIndex amount : Nat) (tx : TxRecord)
    (hfind : findOne w.store txHash = some tx) (hst : tx.state = "in-progress")
    (hflag : w.isProcessingDeposit = false)
    (hdep : env.depositResult = DepositRpcResult.okRes)
    (hfail : env.updateFails = true) :
    (updateTxState envA wA txHash st).1 = Outcome.ok ()
    ∧ (env.updateFails = true → (updateTxState env w txHash st).2 = w)
    ∧ performDeposit env w txHash nonce pid_1 pid_2 tokenIndex amount =
        (Outcome.ok true, { w with
          isProcessingDeposit := false
          actions := w.actions ++
            [L2Action.depositCall nonce pid_1 pid_2 tokenIndex amount (some tx)] }) := by
  refine ⟨?_, ?_, ?_⟩
  · unfold updateTxState
    by_cases hA : envA.updateFails <;> simp [hA]
  · intro hf
    simp [updateTxState, hf]
  · have hstne : ¬ (findOne w.store txHash).map TxRecord.state = some "completed" := by
      rw [hfind]
      simp [hst]
    simp only [performDeposit, hflag, Bool.false_eq_true, if_false, emit,
      updateTxState, hdep, hfail, if_true]
    rw [if_neg (by simpa using hstne)]
    simp [hfind]

/-- C9 witness: the theorem applied to an in-progress record whose
completion write is rejected by the store: performDeposit still returns
true and the record is left in-progress. -/
theorem c9_update_errors_swallowed_witness :
    (updateTxState ⟨false, 7, DepositRpcResult.okRes, false, none, true, 0⟩
        ⟨[], false, []⟩ "0xa" "completed").1 = Outcome.ok ()
    ∧ ((⟨false, 7, DepositRpcResult.okRes, false, none, true, 0⟩ : L2Env).updateFails =
          true →
        (updateTxState ⟨false, 7, DepositRpcResult.okRes, false, none, true, 0⟩
          ⟨[⟨"0xa", "in-progress", "tokA", "u", 1, 2, 3, some 4, 0, none⟩], false, []⟩
          "0xa" "completed").2 =
        ⟨[⟨"0xa", "in-progress", "tokA", "u", 1, 2, 3, some 4, 0, none⟩], false, []⟩)
    ∧ performDeposit ⟨false, 7, DepositRpcResult.okRes, false, none, true, 0⟩
        ⟨[⟨"0xa", "in-progress", "tokA", "u", 1, 2, 3, some 4, 0, none⟩], false, []⟩
        "0xa" 4 1 2 0 3 =
      (Outcome.ok true,
        ⟨[⟨"0xa", "in-progress", "tokA", "u", 1, 2, 3, some 4, 0, none⟩], false,
          [L2Action.depositCall 4 1 2 0 3
            (some ⟨"0xa", "in-progress", "tokA", "u", 1, 2, 3, some 4, 0, none⟩)]⟩) :=
  c9_update_errors_swallowed
    ⟨false, 7, DepositRpcResult.okRes, false, none, true, 0⟩
    ⟨false, 7, DepositRpcResult.okRes, false, none, true, 0⟩
    ⟨[⟨"0xa", "in-progress", "tokA", "u", 1, 2, 3, some 4, 0, none⟩], false, []⟩
    ⟨[], false, []⟩ "0xa" "completed" 4 1 2 0 3
    ⟨"0xa", "in-progress", "tokA", "u", 1, 2, 3, some 4, 0, none⟩
    (by decide) rfl rfl rfl rfl

/-! ## Helper lemmas: performDeposit on a live record -/

theorem performDeposit_not_completed (env : L2Env) (w : World) (h : String)
    (n p1 p2 ti amt : Nat) (tx : TxRecord)
    (hflag : w.isProcessingDeposit = false)
    (hfind : findOne w.store h = some tx) (hst : tx.state ≠ "completed") :
    ((performDeposit env w h n p1 p2 ti amt).2.actions =
      w.actions ++ [L2Action.depositCall n p1 p2 ti amt (some tx)])
    ∧ ((performDeposit env w h n p1 p2 ti amt).2.isProcessingDeposit = false)
    ∧ (∀ c, (performDeposit env w h n p1 p2 ti amt).1 ≠ Outcome.exited c)
    ∧ (env.updateFails = false →
        (env.depositResult = DepositRpcResult.okRes →
          performDeposit env w h n p1 p2 ti amt =
            (Outcome.ok true, ⟨updateOneNeCompleted w.store h "completed", false,
              w.actions ++ [L2Action.depositCall n p1 p2 ti amt (some tx)]⟩))
        ∧ (env.depositResult = DepositRpcResult.falsyRes →
            performDeposit env w h n p1 p2 ti amt =
              (Outcome.threw ("Deposit failed for transaction " ++ h),
                ⟨updateOneNeCompleted (updateOneNeCompleted w.store h "failed") h "failed",
                  false,
                  w.actions ++ [L2Action.depositCall n p1 p2 ti amt (some tx)]⟩))
        ∧ (env.depositResult = DepositRpcResult.throwRes →
            performDeposit env w h n p1 p2 ti amt =
              (Outcome.threw "Error during deposit",
                ⟨updateOneNeCompleted w.store h "failed", false,
                  w.actions ++ [L2Action.depositCall n p1 p2 ti amt (some tx)]⟩))) := by
  have hmap : ((findOne w.store h).map TxRecord.state = some "completed") = False := by
    rw [hfind]
    simpa using hst
  have hfailed : findOne (updateOneNeCompleted w.store h "failed") h =
      some { tx with state := "failed" } := findOne_updateOne_set _ hfind hst _
  cases henv : env.depositResult <;>
    by_cases hu : env.updateFails <;>
      simp_all [performDeposit, updateTxState, emit, hflag, hfind, hmap, hst]

/-- C4: for a TopUp event on a known token with no tracked record, the
credited whole-unit amount is the wei amount integer-divided by 10 to
the 18; a quotient below 1 creates the record directly as completed
with no L2 interaction at all, while a quotient of at least 1 leads to
exactly one deposit submission carrying that quotient. -/
theorem c4_dust_and_conversion (env : L2Env) (w : World) (tokens : List String)
    (ev : TopUpEvent) (ti : Nat)
    (hti : getTokenIndex ev.l1token tokens = some ti)
    (hfind : findOne w.store ev.transactionHash = none)
    (hact : w.actions = []) :
    (ev.amountWei / 10 ^ 18 < 1 →
      processTopUpEvent env w tokens ev =
        (Outcome.ok (), ⟨saveTx w.store (newTxRecord ev.transactionHash "completed"
            ev.l1token ev.address ev.pid_1 ev.pid_2 (ev.amountWei / 10 ^ 18)),
          w.isProcessingDeposit, w.actions⟩)
      ∧ (processTopUpEvent env w tokens ev).2.actions = [])
    ∧ (1 ≤ ev.amountWei / 10 ^ 18 → env.getNonceThrows = false →
        w.isProcessingDeposit = false →
        (processTopUpEvent env w tokens ev).2.actions =
          [L2Action.getNonceCall env.getNonceResult,
            L2Action.depositCall env.getNonceResult ev.pid_1 ev.pid_2 ti
              (ev.amountWei / 10 ^ 18)
              (some { newTxRecord ev.transactionHash "pending" ev.l1token ev.address
                  ev.pid_1 ev.pid_2 (ev.amountWei / 10 ^ 18) with
                nonce := some env.getNonceResult
                state := "in-progress" })]) := by
  constructor
  · intro hlt
    have hproc : processTopUpEvent env w tokens ev =
        (Outcome.ok (), ⟨saveTx w.store (newTxRecord ev.transactionHash "completed"
            ev.l1token ev.address ev.pid_1 ev.pid_2 (ev.amountWei / 10 ^ 18)),
          w.isProcessingDeposit, w.actions⟩) := by
      simp only [processTopUpEvent, hti, hfind]
      rw [freshPath, if_pos hlt]
    refine ⟨hproc, ?_⟩
    rw [hproc]
    exact hact
  · intro hge hgn hflag
    have hne : ¬ ev.amountWei / 10 ^ 18 = 0 := by omega
    have hfw := findOne_saveTx_self
      (saveTx (saveTx w.store (newTxRecord ev.transactionHash "pending" ev.l1token
          ev.address ev.pid_1 ev.pid_2 (ev.amountWei / 10 ^ 18)))
        { newTxRecord ev.transactionHash "pending" ev.l1token ev.address
            ev.pid_1 ev.pid_2 (ev.amountWei / 10 ^ 18) with
          nonce := some env.getNonceResult })
      { newTxRecord ev.transactionHash "pending" ev.l1token ev.address
          ev.pid_1 ev.pid_2 (ev.amountWei / 10 ^ 18) with
        nonce := some env.getNonceResult
        state := "in-progress" }
    have hfw2 := findOne_updateOne_set _ hfw (by simp) "failed"
    cases henv : env.depositResult <;>
      by_cases hu : env.updateFails <;>
        simp_all [processTopUpEvent, hti, hfind, freshPath, performDeposit,
          updateTxState, emit, newTxRecord]

/-- C4 witness: the theorem applied at the two boundary amounts: one wei
below 10 to the 18 produces no L2 interaction, exactly 10 to the 18
produces one deposit submission of amount 1. -/
theorem c4_dust_and_conversion_witness :
    (processTopUpEvent ⟨false, 7, DepositRpcResult.okRes, false, none, false, 0⟩
        ⟨[], false, []⟩ ["tokA"] ⟨"0xa", "tokA", "u", 1, 2, 10 ^ 18 - 1⟩).2.actions = []
    ∧ (processTopUpEvent ⟨false, 7, DepositRpcResult.okRes, false, none, false, 0⟩
        ⟨[], false, []⟩ ["tokA"] ⟨"0xb", "tokA", "u", 1, 2, 10 ^ 18⟩).2.actions =
      [L2Action.getNonceCall 7,
        L2Action.depositCall 7 1 2 0 1
          (some { newTxRecord "0xb" "pending" "tokA" "u" 1 2 1 with
            nonce := some 7
            state := "in-progress" })] :=
  ⟨((c4_dust_and_conversion _ _ _ _ 0 (by decide) (by decide) rfl).1 (by decide)).2,
    (c4_dust_and_conversion _ _ _ _ 0 (by decide) (by decide) rfl).2 (by decide) rfl rfl⟩

/-- C1: reprocessing a tracked record in state in-progress or failed
with a stored nonce consults checkDeposit first; a non-null answer
closes the record as completed with no further submission, a null
answer increments retryCount, stores a freshly fetched nonce, and
resubmits the deposit with that nonce. -/
theorem c1_verify_before_retry (env : L2Env) (w : World) (tokens : List String)
    (ev : TopUpEvent) (tx : TxRecord) (ti n : Nat)
    (hti : getTokenIndex ev.l1token tokens = some ti)
    (hfind : findOne w.store ev.transactionHash = some tx)
    (hst : tx.state = "in-progress" ∨ tx.state = "failed")
    (hnonce : tx.nonce = some n)
    (hcheck : env.checkThrows = false)
    (hflag : w.isProcessingDeposit = false)
    (hupd : env.updateFails = false)
    (hgn : env.getNonceThrows = false)
    (hact : w.actions = []) :
    ((processTopUpEvent env w tokens ev).2.actions.head? =
      some (L2Action.checkDepositCall n ev.pid_1 ev.pid_2 ti (ev.amountWei / 10 ^ 18)))
    ∧ (env.checkData.isSome = true →
        processTopUpEvent env w tokens ev =
          (Outcome.ok (), ⟨updateOneNeCompleted w.store ev.transactionHash "completed",
            w.isProcessingDeposit,
            [L2Action.checkDepositCall n ev.pid_1 ev.pid_2 ti (ev.amountWei / 10 ^ 18)]⟩)
        ∧ findOne (updateOneNeCompleted w.store ev.transactionHash "completed")
            ev.transactionHash = some { tx with state := "completed" })
    ∧ (env.checkData = none →
        (findOne (processTopUpEvent env w tokens ev).2.store ev.transactionHash).map
            TxRecord.retryCount = some (tx.retryCount + 1)
        ∧ (findOne (processTopUpEvent env w tokens ev).2.store ev.transactionHash).map
            TxRecord.nonce = some (some env.getNonceResult)
        ∧ (processTopUpEvent env w tokens ev).2.actions =
            [L2Action.checkDepositCall n ev.pid_1 ev.pid_2 ti (ev.amountWei / 10 ^ 18),
              L2Action.getNonceCall env.getNonceResult,
              L2Action.depositCall env.getNonceResult ev.pid_1 ev.pid_2 ti
                (ev.amountWei / 10 ^ 18)
                (some { tx with
                  retryCount := tx.retryCount + 1
                  lastRetryTime := some env.now
                  nonce := some env.getNonceResult })]) := by
  have htx : tx.txHash = ev.transactionHash := findOne_txHash hfind
  have hstne : tx.state ≠ "completed" := by rcases hst with h | h <;> simp [h]
  have hupdC := findOne_updateOne_set _ hfind hstne "completed"
  have hfw0 := findOne_saveTx_self w.store
    { tx with
      retryCount := tx.retryCount + 1
      lastRetryTime := some env.now
      nonce := some env.getNonceResult }
  have hfw : findOne (saveTx w.store
      { tx with
        retryCount := tx.retryCount + 1
        lastRetryTime := some env.now
        nonce := some env.getNonceResult }) ev.transactionHash =
      some { tx with
        retryCount := tx.retryCount + 1
        lastRetryTime := some env.now
        nonce := some env.getNonceResult } := by
    rw [← htx]
    exact hfw0
  have hfw2 := findOne_updateOne_set _ hfw (by simpa using hstne) "failed"
  have hfw3 := findOne_updateOne_set _ hfw (by simpa using hstne) "completed"
  have hfw4 := findOne_updateOne_set _ hfw2 (by simp) "failed"
  refine ⟨?_, fun hcd => ?_, fun hcd => ?_⟩
  · by_cases hcd : env.checkData.isSome <;>
      cases henv : env.depositResult <;>
        rcases hst with hst | hst <;>
          simp_all [processTopUpEvent, hti, hfind, retryPath, performDeposit,
            updateTxState, emit]
  · rcases hst with hst | hst <;>
      simp_all [processTopUpEvent, hti, hfind, retryPath, updateTxState, emit]
  · cases henv : env.depositResult <;>
      rcases hst with hst | hst <;>
        simp_all [processTopUpEvent, hti, hfind, retryPath, performDeposit,
          updateTxState, emit]

/-- C1 witness: the theorem applied to a tracked failed record with
stored nonce 4, once with a non-null checkDeposit answer (closed as
completed, no resubmission) and once with a null answer (retryCount
becomes 1, fresh nonce 9 stored, deposit resubmitted). -/
theorem c1_verify_before_retry_witness :
    ((processTopUpEvent ⟨false, 9, DepositRpcResult.okRes, false, none, false, 5⟩
        ⟨[⟨"0xr", "failed", "tokA", "u", 1, 2, 2, some 4, 0, none⟩], false, []⟩
        ["tokA"] ⟨"0xr", "tokA", "u", 1, 2, 2 * 10 ^ 18⟩).2.actions.head? =
      some (L2Action.checkDepositCall 4 1 2 0 2))
    ∧ (findOne (processTopUpEvent ⟨false, 9, DepositRpcResult.okRes, false, none, false, 5⟩
        ⟨[⟨"0xr", "failed", "tokA", "u", 1, 2, 2, some 4, 0, none⟩], false, []⟩
        ["tokA"] ⟨"0xr", "tokA", "u", 1, 2, 2 * 10 ^ 18⟩).2.store "0xr").map
        TxRecord.retryCount = some 1
    ∧ (findOne (processTopUpEvent ⟨false, 9, DepositRpcResult.okRes, false, none, false, 5⟩
        ⟨[⟨"0xr", "failed", "tokA", "u", 1, 2, 2, some 4, 0, none⟩], false, []⟩
        ["tokA"] ⟨"0xr", "tokA", "u", 1, 2, 2 * 10 ^ 18⟩).2.store "0xr").map
        TxRecord.nonce = some (some 9)
    ∧ processTopUpEvent ⟨false, 9, DepositRpcResult.okRes, false, some "d", false, 5⟩
        ⟨[⟨"0xr", "failed", "tokA", "u", 1, 2, 2, some 4, 0, none⟩], false, []⟩
        ["tokA"] ⟨"0xr", "tokA", "u", 1, 2, 2 * 10 ^ 18⟩ =
      (Outcome.ok (), ⟨updateOneNeCompleted
          [⟨"0xr", "failed", "tokA", "u", 1, 2, 2, some 4, 0, none⟩] "0xr" "completed",
        false, [L2Action.checkDepositCall 4 1 2 0 2]⟩) :=
  by
  have H1 := c1_verify_before_retry
    ⟨false, 9, DepositRpcResult.okRes, false, none, false, 5⟩
    ⟨[⟨"0xr", "failed", "tokA", "u", 1, 2, 2, some 4, 0, none⟩], false, []⟩
    ["tokA"] ⟨"0xr", "tokA", "u", 1, 2, 2 * 10 ^ 18⟩
    ⟨"0xr", "failed", "tokA", "u", 1, 2, 2, some 4, 0, none⟩ 0 4
    (by decide) (by decide) (Or.inr rfl) rfl rfl rfl rfl rfl rfl
  have H2 := c1_verify_before_retry
    ⟨false, 9, DepositRpcResult.okRes, false, some "d", false, 5⟩
    ⟨[⟨"0xr", "failed", "tokA", "u", 1, 2, 2, some 4, 0, none⟩], false, []⟩
    ["tokA"] ⟨"0xr", "tokA", "u", 1, 2, 2 * 10 ^ 18⟩
    ⟨"0xr", "failed", "tokA", "u", 1, 2, 2, some 4, 0, none⟩ 0 4
    (by decide) (by decide) (Or.inr rfl) rfl rfl rfl rfl rfl rfl
  exact ⟨H1.1, (H1.2.2 rfl).1, (H1.2.2 rfl).2.1, (H2.2.1 rfl).1⟩

/-- C3 counterexample: a tracked record in state failed with a stored
nonce, an unverified checkDeposit and a fresh nonce 9: the deposit is
resubmitted while the persisted record read back at submission time
still has state failed, not in-progress, refuting the claim that every
submission happens with state in-progress persisted. -/
theorem c3_submission_in_failed_state :
    (processTopUpEvent ⟨false, 9, DepositRpcResult.okRes, false, none, false, 5⟩
        ⟨[⟨"0xs", "failed", "tokA", "u", 1, 2, 2, some 4, 0, none⟩], false, []⟩
        ["tokA"] ⟨"0xs", "tokA", "u", 1, 2, 2 * 10 ^ 18⟩).2.actions =
      [L2Action.checkDepositCall 4 1 2 0 2, L2Action.getNonceCall 9,
        L2Action.depositCall 9 1 2 0 2
          (some ⟨"0xs", "failed", "tokA", "u", 1, 2, 2, some 9, 1, some 5⟩)] := by
  decide

set_option maxHeartbeats 3200000 in
/-- C3 as amended: every deposit submission is issued against a
persisted record that exists, has its nonce set, and is in state
in-progress or failed: the fresh and pending paths persist
state in-progress before submitting, while the retry path refreshes
only the nonce and submits with the record still in its prior
in-progress or failed state. -/
theorem c3_submission_record_durable (env : L2Env) (w : World)
    (tokens : List String) (ev : TopUpEvent)
    (hwf : submissionsWellFormed w.actions = true) :
    submissionsWellFormed (processTopUpEvent env w tokens ev).2.actions = true := by
  cases hti : getTokenIndex ev.l1token tokens with
  | none => simpa [processTopUpEvent, hti] using hwf
  | some ti =>
    cases hfind : findOne w.store ev.transactionHash with
    | none =>
      by_cases hlt : ev.amountWei / 10 ^ 18 < 1
      · simp_all [processTopUpEvent, hti, hfind, freshPath]
      · by_cases hgn : env.getNonceThrows
        · simp_all [processTopUpEvent, hti, hfind, freshPath]
        · have hfw := findOne_saveTx_self
            (saveTx (saveTx w.store (newTxRecord ev.transactionHash "pending"
                ev.l1token ev.address ev.pid_1 ev.pid_2 (ev.amountWei / 10 ^ 18)))
              { newTxRecord ev.transactionHash "pending" ev.l1token ev.address
                  ev.pid_1 ev.pid_2 (ev.amountWei / 10 ^ 18) with
                nonce := some env.getNonceResult })
            { newTxRecord ev.transactionHash "pending" ev.l1token ev.address
                ev.pid_1 ev.pid_2 (ev.amountWei / 10 ^ 18) with
              nonce := some env.getNonceResult
              state := "in-progress" }
          have hfw2 := findOne_updateOne_set _ hfw (by simp) "failed"
          cases henv : env.depositResult <;> by_cases hu : env.updateFails <;>
            by_cases hfl : w.isProcessingDeposit <;>
              simp_all [processTopUpEvent, hti, hfind, freshPath, performDeposit,
                updateTxState, emit, submissionsWellFormed, List.all_append,
                newTxRecord]
    | some tx =>
      have htx : tx.txHash = ev.transactionHash := findOne_txHash hfind
      by_cases hc : tx.state = "completed"
      · simp_all [processTopUpEvent, hti, hfind]
      · by_cases hp : tx.state = "pending"
        · by_cases hgn : env.getNonceThrows
          · simp_all [processTopUpEvent, hti, hfind, pendingPath]
          · by_cases hlt : ev.amountWei / 10 ^ 18 < 1
            · by_cases hu : env.updateFails <;>
                simp_all [processTopUpEvent, hti, hfind, pendingPath, updateTxState,
                  emit, submissionsWellFormed, List.all_append]
            · have hfw0 := findOne_saveTx_self
                (saveTx w.store { tx with nonce := some env.getNonceResult })
                { tx with nonce := some env.getNonceResult, state := "in-progress" }
              have hfw : findOne (saveTx
                  (saveTx w.store { tx with nonce := some env.getNonceResult })
                  { tx with nonce := some env.getNonceResult, state := "in-progress" })
                  ev.transactionHash =
                  some { tx with
                    nonce := some env.getNonceResult
                    state := "in-progress" } := by
                rw [← htx]
                exact hfw0
              have hfw2 := findOne_updateOne_set _ hfw (by simp) "failed"
              cases henv : env.depositResult <;> by_cases hu : env.updateFails <;>
                by_cases hfl : w.isProcessingDeposit <;>
                  simp_all [processTopUpEvent, hti, hfind, pendingPath, performDeposit,
                    updateTxState, emit, submissionsWellFormed, List.all_append]
        · by_cases hif : tx.state = "in-progress" ∨ tx.state = "failed"
          · cases hn : tx.nonce with
            | none =>
              simp_all [processTopUpEvent, hti, hfind, retryPath]
            | some nn =>
              by_cases hct : env.checkThrows
              · simp_all [processTopUpEvent, hti, hfind, retryPath]
              · by_cases hcd : env.checkData.isSome
                · by_cases hu : env.updateFails <;> rcases hif with hif | hif <;>
                    simp_all [processTopUpEvent, hti, hfind, retryPath, updateTxState,
                      emit, submissionsWellFormed, List.all_append]
                · by_cases hgn : env.getNonceThrows
                  · rcases hif with hif | hif <;>
                      simp_all [processTopUpEvent, hti, hfind, retryPath, emit,
                        submissionsWellFormed, List.all_append]
                  · have hfw0 := findOne_saveTx_self w.store
                      { tx with
                        retryCount := tx.retryCount + 1
                        lastRetryTime := some env.now
                        nonce := some env.getNonceResult }
                    have hfw : findOne (saveTx w.store
                        { tx with
                          retryCount := tx.retryCount + 1
                          lastRetryTime := some env.now
                          nonce := some env.getNonceResult }) ev.transactionHash =
                        some { tx with
                          retryCount := tx.retryCount + 1
                          lastRetryTime := some env.now
                          nonce := some env.getNonceResult } := by
                      rw [← htx]
                      exact hfw0
                    have hfw2 := findOne_updateOne_set _ hfw (by simpa using hc) "failed"
                    cases henv : env.depositResult <;> by_cases hu : env.updateFails <;>
                      by_cases hfl : w.isProcessingDeposit <;>
                        rcases hif with hif | hif <;>
                          simp_all [processTopUpEvent, hti, hfind, retryPath,
                            performDeposit, updateTxState, emit, submissionsWellFormed,
                            List.all_append]
          · simp_all [processTopUpEvent, hti, hfind]

/-- C3 amended-claim witness: the theorem applied to the same concrete
run as the counterexample, whose single submission carries nonce 9 and
state failed. -/
theorem c3_submission_record_durable_witness :
    submissionsWellFormed (processTopUpEvent
      ⟨false, 9, DepositRpcResult.okRes, false, none, false, 5⟩
      ⟨[⟨"0xs", "failed", "tokA", "u", 1, 2, 2, some 4, 0, none⟩], false, []⟩
      ["tokA"] ⟨"0xs", "tokA", "u", 1, 2, 2 * 10 ^ 18⟩).2.actions = true :=
  c3_submission_record_durable
    ⟨false, 9, DepositRpcResult.okRes, false, none, false, 5⟩
    ⟨[⟨"0xs", "failed", "tokA", "u", 1, 2, 2, some 4, 0, none⟩], false, []⟩
    ["tokA"] ⟨"0xs", "tokA", "u", 1, 2, 2 * 10 ^ 18⟩ rfl

/-- C6: evaluation of the code at the failing input of the nonce-unset
fatal condition.  A tracked record in state failed with no stored nonce,
reprocessed for a known token, makes the run throw the TypeError of the
unguarded nonce getter and leave the world untouched: the outcome is a
thrown exception that the caller logs before continuing, not the exit
with code 1 that both the spec and the dead process.exit branch of the
source intend for this condition. -/
theorem c6_nonce_unset_throws_not_exits :
    processTopUpEvent ⟨false, 9, DepositRpcResult.okRes, false, none, false, 5⟩
        ⟨[⟨"0xn", "failed", "tokA", "u", 1, 2, 2, none, 0, none⟩], false, []⟩
        ["tokA"] ⟨"0xn", "tokA", "u", 1, 2, 2 * 10 ^ 18⟩ =
      (Outcome.threw "TypeError: Cannot convert undefined to a BigInt",
        ⟨[⟨"0xn", "failed", "tokA", "u", 1, 2, 2, none, 0, none⟩], false, []⟩) := by
  decide


end ZkwasmMini
